import Mathlib

/-!
Verification development for the `rs` directory-listing utility
(sources: src/format.rs, src/time.rs, src/user.rs, src/main.rs).

Rust strings are modelled as `List Char`; the escape sequences involved are
ASCII, where byte-level and character-level operations coincide.  Fallible
or panicking Rust operations (index out of bounds, usize underflow,
`unwrap`) are modelled with `Option`, `none` standing for a panic.
-/

/-- Convert a Lean string literal to the `List Char` model of a Rust string. -/
def chars (s : String) : List Char := s.data

/-- The space character, used by the padding functions. -/
def spaceChar : Char := Char.ofNat 32

/-- The ASCII escape character 0x1b. -/
def escChar : Char := Char.ofNat 27

/-- The newline character used to join table rows. -/
def newlineChar : Char := Char.ofNat 10

/-- Decimal rendering of a natural number, modelling Rust `to_string`. -/
def natStr (n : Nat) : List Char := (Nat.repr n).data

/-- format.rs ESCAPE_BLUE_BOLD = "\x1b[34;1m". -/
def escBB : List Char := [escChar, '[', '3', '4', ';', '1', 'm']

/-- format.rs ESCAPE_RESET = "\x1b[0m". -/
def escReset : List Char := [escChar, '[', '0', 'm']

/-- format.rs `blue_bold`: wrap a string in the blue-bold and reset escapes. -/
def blue_bold (s : List Char) : List Char := escBB ++ s ++ escReset

/-- Fuel-indexed core of Rust `str::replace(pat, "")`: scan left to right,
removing each non-overlapping occurrence of `pat`.  The fuel argument only
makes the recursion structural; with fuel at least the length of the input
(as in `replaceAll`) it never runs out. -/
def replaceAllFuel (pat : List Char) : Nat → List Char → List Char
  | _, [] => []
  | 0, xs => xs
  | fuel + 1, c :: rest =>
    if pat ≠ [] ∧ pat.isPrefixOf (c :: rest) = true then
      replaceAllFuel pat fuel ((c :: rest).drop pat.length)
    else
      c :: replaceAllFuel pat fuel rest

/-- Rust `str::replace(pat, "")`: remove every (left-to-right,
non-overlapping) occurrence of the non-empty pattern `pat`. -/
def replaceAll (pat xs : List Char) : List Char := replaceAllFuel pat xs.length xs

/-- format.rs `unescaped_length`: length after removing all occurrences of
the blue-bold escape and then all occurrences of the reset escape. -/
def unescaped_length (s : List Char) : Nat :=
  (replaceAll escReset (replaceAll escBB s)).length

/-- format.rs `TableAlignment`. -/
inductive TableAlignment
  | Left
  | Right
  | RightLastLeft
deriving DecidableEq

/-- Rust `usize` subtraction: underflow is a panic, modelled as `none`. -/
def rust_sub (a b : Nat) : Option Nat := if b ≤ a then some (a - b) else none

/-- format.rs `pad_right`: append spaces up to the target visible length.
`none` models the panic when the cell is already wider than the target. -/
def pad_right (input : List Char) (len : Nat) : Option (List Char) :=
  if unescaped_length input = len then some input
  else
    match rust_sub len (unescaped_length input) with
    | some k => some (input ++ List.replicate k spaceChar)
    | none => none

/-- format.rs `pad_left`: prepend spaces up to the target visible length.
`none` models the panic when the cell is already wider than the target. -/
def pad_left (input : List Char) (len : Nat) : Option (List Char) :=
  if unescaped_length input = len then some input
  else
    match rust_sub len (unescaped_length input) with
    | some k => some (List.replicate k spaceChar ++ input)
    | none => none

/-- format.rs `col_max_size_map` at one column index: the maximum
`unescaped_length` over all rows at that index.  (The Rust HashMap holds no
entry for an all-zero-width column, and such a cell is then left unchanged;
padding a zero-visible-width cell to width 0 is also the identity, so the
total max function is an equivalent model.) -/
def col_max_size_map (grid : List (List (List Char))) (col : Nat) : Nat :=
  grid.foldl (fun acc row => max acc (unescaped_length (row.getD col []))) 0

/-- One padded cell of format.rs `table`: the last column is right-padded,
every other column is left-padded (for `RightLastLeft`). -/
def padCell (align : TableAlignment) (num_cols col m : Nat) (cell : List Char) :
    Option (List Char) :=
  match align with
  | TableAlignment.Left => pad_right cell m
  | TableAlignment.Right => pad_left cell m
  | TableAlignment.RightLastLeft =>
    if col = num_cols - 1 then pad_right cell m else pad_left cell m

/-- Rust `Vec::join`. -/
def joinSep (sep : List Char) : List (List Char) → List Char
  | [] => []
  | [x] => x
  | x :: y :: rest => x ++ sep ++ joinSep sep (y :: rest)

/-- format.rs `table`: validate equal column counts (error string on
mismatch, from `validate_table_equality`), pad every cell to its column's
maximum visible width according to the alignment, join columns with
`col_size` spaces and rows with newlines.  The outer `none` models the
index panic of `input_data[0]` on an empty grid (and a padding panic,
which a validated grid never reaches). -/
def table (input_data : List (List (List Char))) (col_size : Nat)
    (align : TableAlignment) : Option (Except (List Char) (List Char)) :=
  match input_data with
  | [] => none
  | r0 :: rest =>
    let num_cols := r0.length
    if ∀ row ∈ r0 :: rest, row.length = num_cols then
      match (r0 :: rest).mapM (fun row =>
          (List.range num_cols).mapM (fun col =>
            padCell align num_cols col (col_max_size_map (r0 :: rest) col)
              (row.getD col []))) with
      | some paddedRows =>
        some (Except.ok (joinSep [newlineChar]
          (paddedRows.map (fun r => joinSep (List.replicate col_size spaceChar) r))))
      | none => none
    else
      some (Except.error (chars ("All rows must have the same number of columns")))

/-- One-decimal rendering of `b / u`, for `bytes_to_human_readable`.  The
Rust code divides `f64` values and prints with a one-decimal format; the
quotient here is the exact rational rounded to one decimal, which agrees
with the Rust output on the magnitudes involved (no claim in this
development depends on this function). -/
def fmtOneDecimal (b u : Nat) (label : Char) : List Char :=
  let n10 := (b * 10 + u / 2) / u
  natStr (n10 / 10) ++ ['.'] ++ natStr (n10 % 10) ++ [label]

/-- format.rs `bytes_to_human_readable`. -/
def bytes_to_human_readable (bytes : Nat) : List Char :=
  if 1024 ≤ bytes ∧ bytes < 1048576 then fmtOneDecimal bytes 1024 'K'
  else if 1048576 ≤ bytes ∧ bytes < 1073741824 then fmtOneDecimal bytes 1048576 'M'
  else if 1073741824 ≤ bytes ∧ bytes < 1099511627776 then
    fmtOneDecimal bytes 1073741824 'G'
  else natStr bytes

/-- time.rs `SimpleDate`. -/
structure SimpleDate where
  year : Nat
  month : Nat
  day : Nat
deriving DecidableEq

/-- time.rs `SimpleDate::from_days` (all arithmetic on `u64`, here `Nat`;
no intermediate subtraction underflows for the values the algorithm
produces).  The code credits Howard Hinnant's civil-from-days algorithm. -/
def from_days (d : Nat) : SimpleDate :=
  let days := d + 719468
  let era := (if days > 0 then days else days - 146096) / 146097
  let doe := days - era * 146097
  let yoe := (doe - doe / 1460 + doe / 36524 - doe / 146096) / 365
  let y := yoe + era * 400
  let doy := doe - (365 * yoe + yoe / 4 - yoe / 100)
  let mp := (5 * doy + 2) / 153
  let dd := doy - (153 * mp + 2) / 5 + 1
  let m := mp + (if mp < 10 then 3 else 9)
  { year := y, month := m, day := dd }

/-- time.rs `DateFormat`. -/
inductive DateFormat
  | Numeric
  | FullMonth
  | ShortMonth
deriving DecidableEq

/-- time.rs `SimpleDate::month_from_numeric`. -/
def month_from_numeric (m : Nat) : Except (List Char) (List Char) :=
  let selected_month :=
    if m = 1 then chars ("January")
    else if m = 2 then chars ("February")
    else if m = 3 then chars ("March")
    else if m = 4 then chars ("April")
    else if m = 5 then chars ("May")
    else if m = 6 then chars ("June")
    else if m = 7 then chars ("July")
    else if m = 8 then chars ("August")
    else if m = 9 then chars ("September")
    else if m = 10 then chars ("October")
    else if m = 11 then chars ("November")
    else if m = 12 then chars ("December")
    else []
  if selected_month = [] then
    Except.error (chars ("Invalid month ") ++ natStr m ++ chars (". Range is [1,12]"))
  else Except.ok selected_month

/-- time.rs `SimpleDate::month_display`.  The Rust code calls `.unwrap()`
on `month_from_numeric`; `none` models the panic on an `Err`. -/
def month_display (d : SimpleDate) (format : DateFormat) : Option (List Char) :=
  match format with
  | DateFormat.Numeric => some (natStr d.month)
  | DateFormat.FullMonth =>
    match month_from_numeric d.month with
    | Except.ok s => some s
    | Except.error _ => none
  | DateFormat.ShortMonth =>
    match month_from_numeric d.month with
    | Except.ok s => some (s.take 3)
    | Except.error _ => none

/-- user.rs: the `":{id}:"` search pattern built by `get_name_from_db`. -/
def idPat (id : Nat) : List Char := ':' :: (natStr id ++ [':'])

/-- Rust `str::contains` for a pattern string: some suffix starts with it. -/
def containsSub (pat : List Char) : List Char → Bool
  | [] => pat.isEmpty
  | c :: rest => pat.isPrefixOf (c :: rest) || containsSub pat rest

/-- Inner character loop of user.rs `get_name_from_db`: push characters
onto `name` until a colon; `(some result, _)` models the early `return`,
`(none, name2)` the loop running off the end with the extended `name`. -/
def name_scan (name : List Char) : List Char → Option (List Char) × List Char
  | [] => (none, name)
  | ch :: rest => if ch = ':' then (some name, name) else name_scan (name ++ [ch]) rest

/-- Line loop of user.rs `get_name_from_db`. -/
def get_name_loop (id : Nat) (name : List Char) : List (List Char) → List Char
  | [] => name
  | line :: rest =>
    if containsSub (idPat id) line then
      match name_scan name line with
      | (some result, _) => result
      | (none, name2) => get_name_loop id name2 rest
    else get_name_loop id name rest

/-- user.rs `get_name_from_db`: the database content is modelled by its
list of lines (the Rust code iterates `db_string.lines()`). -/
def get_name_from_db (id : Nat) (db_lines : List (List Char)) : List Char :=
  get_name_loop id [] db_lines

/-- user.rs `get_by_uid`: reading /etc/passwd is external; its result is
passed in as `some` lines on success, `none` on a read error. -/
def get_by_uid (uid : Nat) (read_result : Option (List (List Char))) :
    Except (List Char) (List Char) :=
  match read_result with
  | some user_db => Except.ok (get_name_from_db uid user_db)
  | none => Except.error (chars ("Error getting user name for uid ") ++ natStr uid)

/-- user.rs `group_by_gid`, analogous to `get_by_uid` over /etc/group. -/
def group_by_gid (gid : Nat) (read_result : Option (List (List Char))) :
    Except (List Char) (List Char) :=
  match read_result with
  | some group_db => Except.ok (get_name_from_db gid group_db)
  | none => Except.error (chars ("Error getting group name for gid ") ++ natStr gid)

/-- The metadata record of one directory entry, as consumed by main.rs
(an opaque stat-result in the spec's terms).  `modified`/`accessed` model
`Metadata::modified()`/`accessed()`: `none` is an `Err`, `some t` an `Ok`
time of `t` seconds relative to the Unix epoch (negative = before it). -/
structure Metadata where
  is_dir : Bool
  is_file : Bool
  is_symlink : Bool
  mode : Nat
  st_nlink : Nat
  st_uid : Nat
  st_gid : Nat
  len : Nat
  st_mtime : Int
  st_atime : Int
  st_blocks : Nat
  st_blksize : Nat
  st_ino : Nat
  modified : Option Int
  accessed : Option Int
deriving DecidableEq

/-- main.rs `Options`. -/
structure Options where
  is_show_all : Bool
  is_show_almost_all : Bool
  is_one_line : Bool
  is_long_output : Bool
  is_numeric_uid_gid : Bool
  is_human_readable : Bool
  is_group_directories_first : Bool
  is_ignore_backups : Bool
  is_sort_by_time : Bool
  is_sort_by_size : Bool
  is_sort_by_extension : Bool
  is_sort_reverse : Bool
  is_show_size_blocks : Bool
  is_access_time : Bool
  is_show_inode : Bool
  is_kibibytes : Bool
  is_comma_separated : Bool
deriving DecidableEq

/-- main.rs `RSEntry`.  The `path` field is used by the code only for the
metadata lookup (already reflected in `metadata`) and for
`path.extension()`; `ext` holds that extension lookup's result. -/
structure RSEntry where
  name : List Char
  ext : Option (List Char)
  metadata : Option Metadata
deriving DecidableEq

/-- main.rs `RSEntries`. -/
structure RSEntries where
  entries : List RSEntry
  block_size : Nat
deriving DecidableEq

/-- main.rs `RSSort`. -/
inductive RSSort
  | Time
  | AccessTime
  | Size
  | Directory
  | Extension
  | Default
deriving DecidableEq

/-- Rust `Ord` on `u64`/`usize`. -/
def cmpNat (a b : Nat) : Ordering :=
  if a < b then Ordering.lt else if a = b then Ordering.eq else Ordering.gt

/-- Rust `Ord` on `i64`. -/
def cmpInt (a b : Int) : Ordering :=
  if a < b then Ordering.lt else if a = b then Ordering.eq else Ordering.gt

/-- Rust `Ord` on `bool`: `false < true`. -/
def cmpBool (a b : Bool) : Ordering :=
  if a = b then Ordering.eq else if a = false then Ordering.lt else Ordering.gt

/-- Rust `Ord` on strings: lexicographic (byte order and code-point order
coincide under UTF-8). -/
def cmpList : List Char → List Char → Ordering
  | [], [] => Ordering.eq
  | [], _ :: _ => Ordering.lt
  | _ :: _, [] => Ordering.gt
  | a :: xs, b :: ys =>
    if a < b then Ordering.lt
    else if a = b then cmpList xs ys
    else Ordering.gt

/-- The comparator closure of main.rs `RSEntries::sort_by` (`a.cmp(b)` on
`RSEntry` is name comparison, from the `Ord` impl). -/
def entry_cmp (kind : RSSort) (a b : RSEntry) : Ordering :=
  match a.metadata, b.metadata with
  | some meta_a, some meta_b =>
    match kind with
    | RSSort.Directory => cmpBool meta_b.is_dir meta_a.is_dir
    | RSSort.Time => cmpInt meta_b.st_mtime meta_a.st_mtime
    | RSSort.AccessTime => cmpInt meta_b.st_atime meta_a.st_atime
    | RSSort.Size => cmpNat meta_b.len meta_a.len
    | RSSort.Extension =>
      match a.ext, b.ext with
      | some ext_a, some ext_b => cmpList ext_a ext_b
      | some _, none => Ordering.gt
      | none, some _ => Ordering.lt
      | none, none => cmpList a.name b.name
    | RSSort.Default => cmpList a.name b.name
  | _, _ => cmpList a.name b.name

/-- Stable insertion used to model Rust's stable `slice::sort_by`: an
element is placed after every already-placed element that does not compare
greater than it. -/
def insertStable (cmp : RSEntry → RSEntry → Ordering) (x : RSEntry) :
    List RSEntry → List RSEntry
  | [] => [x]
  | y :: ys =>
    if cmp y x = Ordering.gt then x :: y :: ys else y :: insertStable cmp x ys

/-- A stable ascending sort with respect to the comparator, modelling
Rust's (stable) `slice::sort_by`. -/
def sortByCmp (cmp : RSEntry → RSEntry → Ordering) (l : List RSEntry) :
    List RSEntry :=
  l.foldl (fun acc x => insertStable cmp x acc) []

/-- main.rs `RSEntries::sort_by`. -/
def RSEntries.sort_by (es : RSEntries) (kind : RSSort) : RSEntries :=
  { es with entries := sortByCmp (entry_cmp kind) es.entries }

/-- main.rs `RSEntries::reverse`. -/
def RSEntries.rev (es : RSEntries) : RSEntries :=
  { es with entries := es.entries.reverse }

/-- The `{4,5,6,7}` octal-digit-to-rwx table of `get_permission_string`;
any other digit contributes nothing (the `continue` arm). -/
def permDigitStr (c : Char) : List Char :=
  if c = '4' then chars ("r--")
  else if c = '5' then chars ("r-x")
  else if c = '6' then chars ("rw-")
  else if c = '7' then chars ("rwx")
  else []

/-- main.rs `RSEntry::get_permission_string`.  `Nat.toDigits 8` models
`format!` with the octal specifier; the slice of the last three characters
is Nat-truncated here (the Rust slice start index would underflow for a
mode below two octal digits, which `st_mode` values never are). -/
def get_permission_string (e : RSEntry) : List Char :=
  match e.metadata with
  | none => []
  | some file_metadata =>
    let prefixChar :=
      if file_metadata.is_dir then 'd'
      else if file_metadata.is_file then '-'
      else if file_metadata.is_symlink then 'l'
      else '?'
    let mode_string := Nat.toDigits 8 file_metadata.mode
    let permission_bits := mode_string.drop (mode_string.length - 3)
    prefixChar :: permission_bits.foldl (fun acc c => acc ++ permDigitStr c) []

/-- main.rs `RSEntry::get_file_size`. -/
def get_file_size (e : RSEntry) : Nat :=
  match e.metadata with
  | some file_metadata => file_metadata.len
  | none => 0

/-- main.rs `RSEntry::get_file_size_human`. -/
def get_file_size_human (e : RSEntry) : List Char :=
  match e.metadata with
  | some file_metadata => bytes_to_human_readable file_metadata.len
  | none => []

/-- main.rs SECS_PER_DAY. -/
def SECS_PER_DAY : Nat := 86400

/-- main.rs `RSEntry::get_table_row`.  External inputs are passed in:
`is_macos` models `cfg!(target_os = "macos")`, `stdout_is_terminal` the
terminal check, and `user_db`/`group_db` the /etc/passwd and /etc/group
read results consumed through `get_by_uid`/`group_by_gid`.  The result is
`none` when the Rust code panics (`duration_since(UNIX_EPOCH).unwrap()` on
a pre-epoch time, or `month_display`'s `unwrap` on an invalid month). -/
def get_table_row (e : RSEntry) (options : Options) (is_macos : Bool)
    (stdout_is_terminal : Bool) (user_db group_db : Option (List (List Char))) :
    Option (List (List Char)) :=
  match e.metadata with
  | none => some []
  | some file_metadata =>
    let b0 : List (List Char) := []
    let b1 :=
      if options.is_show_size_blocks then
        b0 ++ [natStr (if options.is_kibibytes then file_metadata.st_blocks / 2
                       else file_metadata.st_blocks)]
      else b0
    let b2 :=
      if options.is_show_inode && is_macos then b1 ++ [natStr file_metadata.st_ino]
      else b1
    let longPart : Option (List (List Char)) :=
      if options.is_long_output || options.is_numeric_uid_gid then
        let permission_string := get_permission_string e
        let uid_string :=
          if options.is_numeric_uid_gid then natStr file_metadata.st_uid
          else
            match get_by_uid file_metadata.st_uid user_db with
            | Except.ok user_name => user_name
            | Except.error _ => ['?']
        let gid_string :=
          if options.is_numeric_uid_gid then natStr file_metadata.st_gid
          else
            match group_by_gid file_metadata.st_gid group_db with
            | Except.ok group_name => group_name
            | Except.error _ => ['?']
        let file_size_string :=
          if options.is_human_readable then get_file_size_human e
          else natStr (get_file_size e)
        let time_to_parse :=
          if options.is_access_time then file_metadata.accessed
          else file_metadata.modified
        match time_to_parse with
        | some t =>
          if t < 0 then none
          else
            let days := t.toNat / SECS_PER_DAY
            let date := from_days days
            match month_display date DateFormat.ShortMonth with
            | some ms =>
              some [permission_string, natStr file_metadata.st_nlink, uid_string,
                gid_string, file_size_string, ms, natStr date.day]
            | none => none
        | none =>
          some [permission_string, natStr file_metadata.st_nlink, uid_string,
            gid_string, file_size_string, [spaceChar]]
      else some []
    match longPart with
    | none => none
    | some longFields =>
      let nameField :=
        if file_metadata.is_dir && stdout_is_terminal then blue_bold e.name
        else e.name
      some (b2 ++ longFields ++ [nameField])

/-- main.rs MB_BYTES (the divisor applied to `st_blksize`). -/
def MB_BYTES : Nat := 1024

/-- main.rs `get_entries`: each directory entry comes with its extension
and the (external) `fs::metadata` result; a failed lookup keeps the entry
with `metadata = none`, a successful one adds `st_blksize / MB_BYTES` to
the running `block_size` total. -/
def get_entries
    (dir_entries : List (List Char × Option (List Char) × Except (List Char) Metadata)) :
    RSEntries :=
  dir_entries.foldl
    (fun acc de =>
      match de with
      | (dir_entry, e, Except.ok meta) =>
        { entries := acc.entries ++ [{ name := dir_entry, ext := e, metadata := some meta }],
          block_size := acc.block_size + meta.st_blksize / MB_BYTES }
      | (dir_entry, e, Except.error _) =>
        { entries := acc.entries ++ [{ name := dir_entry, ext := e, metadata := none }],
          block_size := acc.block_size })
    { entries := [], block_size := 0 }

/-- A regular-file metadata record used for concrete test inputs. -/
def sampleMeta2 : Metadata :=
  { is_dir := false, is_file := true, is_symlink := false, mode := 33188,
    st_nlink := 1, st_uid := 1000, st_gid := 1000, len := 100, st_mtime := 5,
    st_atime := 5, st_blocks := 8, st_blksize := 4096, st_ino := 7,
    modified := some 0, accessed := some 0 }

/-- Concrete entry "a.md" (extension "md"), with metadata. -/
def entAmd : RSEntry :=
  { name := chars "a.md", ext := some (chars "md"), metadata := some sampleMeta2 }

/-- Concrete entry "b" (no extension), with metadata. -/
def entB : RSEntry := { name := chars "b", ext := none, metadata := some sampleMeta2 }

/-- Concrete entry "c.go" (extension "go"), with metadata. -/
def entCgo : RSEntry :=
  { name := chars "c.go", ext := some (chars "go"), metadata := some sampleMeta2 }

/-- Concrete entry "b" for the size-tie example (same size as `entSizeA`). -/
def entSizeB : RSEntry := { name := chars "b", ext := none, metadata := some sampleMeta2 }

/-- Concrete entry "a" for the size-tie example (same size as `entSizeB`). -/
def entSizeA : RSEntry := { name := chars "a", ext := none, metadata := some sampleMeta2 }

/-- A metadata record whose allocation block count is 0 while the preferred
I/O block size is 4096, separating the two fields `get_entries` could sum. -/
def c5meta2 : Metadata :=
  { is_dir := false, is_file := true, is_symlink := false, mode := 33188,
    st_nlink := 1, st_uid := 0, st_gid := 0, len := 10, st_mtime := 0,
    st_atime := 0, st_blocks := 0, st_blksize := 4096, st_ino := 1,
    modified := some 0, accessed := some 0 }
theorem replaceAllFuel_irrel (pat : List Char) :
    ∀ fuel xs, xs.length ≤ fuel → replaceAllFuel pat fuel xs = replaceAll pat xs := by
  intro fuel
  induction fuel using Nat.strong_induction_on with
  | _ fuel ih =>
    intro xs hxs
    cases xs with
    | nil => cases fuel <;> rfl
    | cons c rest =>
      cases fuel with
      | zero => simp at hxs
      | succ f =>
        have hr : rest.length ≤ f := by simpa using hxs
        have hrhs : replaceAll pat (c :: rest) = replaceAllFuel pat (rest.length + 1) (c :: rest) := rfl
        rw [hrhs]
        simp only [replaceAllFuel]
        by_cases h : pat ≠ [] ∧ pat.isPrefixOf (c :: rest) = true
        · rw [if_pos h, if_pos h]
          have hp1 : 1 ≤ pat.length := List.length_pos.mpr h.1
          have hdl : ((c :: rest).drop pat.length).length ≤ rest.length := by
            simp [List.length_drop]; omega
          rw [ih f (by omega) _ (le_trans hdl hr),
              ih rest.length (by omega) _ hdl]
        · rw [if_neg h, if_neg h]
          rw [ih f (by omega) rest hr]
          rfl

theorem replaceAll_nil (pat : List Char) : replaceAll pat [] = [] := rfl

theorem replaceAll_cons_pos (pat : List Char) (c : Char) (rest : List Char)
    (h1 : pat ≠ []) (h2 : pat.isPrefixOf (c :: rest) = true) :
    replaceAll pat (c :: rest) = replaceAll pat ((c :: rest).drop pat.length) := by
  have e : replaceAll pat (c :: rest) = replaceAllFuel pat (rest.length + 1) (c :: rest) := rfl
  rw [e]
  simp only [replaceAllFuel]
  rw [if_pos ⟨h1, h2⟩]
  apply replaceAllFuel_irrel
  have hp1 : 1 ≤ pat.length := List.length_pos.mpr h1
  simp [List.length_drop]; omega

theorem replaceAll_cons_neg (pat : List Char) (c : Char) (rest : List Char)
    (h : ¬ pat.isPrefixOf (c :: rest) = true) :
    replaceAll pat (c :: rest) = c :: replaceAll pat rest := by
  have e : replaceAll pat (c :: rest) = replaceAllFuel pat (rest.length + 1) (c :: rest) := rfl
  rw [e]
  simp only [replaceAllFuel]
  rw [if_neg (fun hc => h hc.2)]
  rfl

theorem isPrefixOf_append_left {pat v w : List Char}
    (h : pat.isPrefixOf (v ++ w) = true) (hl : pat.length ≤ v.length) :
    pat.isPrefixOf v = true := by
  rw [ List.isPrefixOf_iff_prefix] at h ⊢
  obtain ⟨t, ht⟩ := h
  have h1 : (pat ++ t).take pat.length = pat := List.take_left pat t
  rw [ht] at h1
  have h2 : (v ++ w).take pat.length = v.take pat.length :=
    List.take_append_of_le_length hl
  rw [h2] at h1
  rw [← h1]
  exact List.take_prefix _ _

theorem isPrefixOf_append_getElem {pat v w : List Char}
    (h : pat.isPrefixOf (v ++ w) = true) (hl : v.length < pat.length) :
    pat[v.length]? = w[0]? := by
  rw [ List.isPrefixOf_iff_prefix] at h
  obtain ⟨t, ht⟩ := h
  have hcongr := congrArg (fun l => l[v.length]?) ht
  simp only at hcongr
  simp only [List.getElem?_append] at hcongr
  rw [if_pos hl, if_neg (lt_irrefl v.length)] at hcongr
  simpa using hcongr

theorem span_bb_reset : ∀ (c : Char) (u : List Char),
    escBB.isPrefixOf ((c :: u) ++ escReset) = true → escBB.isPrefixOf (c :: u) = true := by
  intro c u h
  by_cases hl : escBB.length ≤ (c :: u).length
  · exact isPrefixOf_append_left h hl
  · exfalso
    push_neg at hl
    have hidx := isPrefixOf_append_getElem h hl
    have hres : escReset[0]? = some escChar := rfl
    rw [hres] at hidx
    have h7 : escBB.length = 7 := rfl
    rw [h7] at hl
    have hcu : (c :: u).length = u.length + 1 := by simp
    rw [hcu] at hidx hl
    have hb : u.length < 6 := by omega
    set n := u.length with hn
    interval_cases n <;> exact absurd hidx (by decide)

theorem span_reset_reset : ∀ (c : Char) (u : List Char),
    escReset.isPrefixOf ((c :: u) ++ escReset) = true →
    escReset.isPrefixOf (c :: u) = true := by
  intro c u h
  by_cases hl : escReset.length ≤ (c :: u).length
  · exact isPrefixOf_append_left h hl
  · exfalso
    push_neg at hl
    have hidx := isPrefixOf_append_getElem h hl
    have hres : escReset[0]? = some escChar := rfl
    rw [hres] at hidx
    have h4 : escReset.length = 4 := rfl
    rw [h4] at hl
    have hcu : (c :: u).length = u.length + 1 := by simp
    rw [hcu] at hidx hl
    have hb : u.length < 3 := by omega
    set n := u.length with hn
    interval_cases n <;> exact absurd hidx (by decide)

theorem span_spaces (pat : List Char) (k : Nat) (hmem : spaceChar ∉ pat) :
    ∀ (c : Char) (u : List Char),
    pat.isPrefixOf ((c :: u) ++ List.replicate k spaceChar) = true →
    pat.isPrefixOf (c :: u) = true := by
  intro c u h
  by_cases hl : pat.length ≤ (c :: u).length
  · exact isPrefixOf_append_left h hl
  · exfalso
    push_neg at hl
    have hidx := isPrefixOf_append_getElem h hl
    cases k with
    | zero =>
      simp at hidx hl
      omega
    | succ k2 =>
      have hsp : (List.replicate (k2 + 1) spaceChar)[0]? = some spaceChar := by
        simp
      rw [hsp] at hidx
      exact hmem (List.getElem?_mem hidx)

theorem replaceAll_append_split (pat tail2 : List Char) (hpat : pat ≠ [])
    (hspan : ∀ (c : Char) (u : List Char),
      pat.isPrefixOf ((c :: u) ++ tail2) = true → pat.isPrefixOf (c :: u) = true) :
    ∀ s, replaceAll pat (s ++ tail2) = replaceAll pat s ++ replaceAll pat tail2 := by
  have key : ∀ n s, s.length ≤ n →
      replaceAll pat (s ++ tail2) = replaceAll pat s ++ replaceAll pat tail2 := by
    intro n
    induction n with
    | zero =>
      intro s hs
      have hnil : s = [] := List.eq_nil_of_length_eq_zero (Nat.le_zero.mp hs)
      subst hnil
      simp [replaceAll_nil]
    | succ n ih =>
      intro s hs
      cases s with
      | nil => simp [replaceAll_nil]
      | cons c s2 =>
        have hs2 : s2.length ≤ n := by simpa using hs
        by_cases hm : pat.isPrefixOf (c :: s2) = true
        · have hm2 : pat.isPrefixOf (c :: (s2 ++ tail2)) = true := by
            rw [ List.isPrefixOf_iff_prefix] at hm ⊢
            exact hm.trans (List.prefix_append (c :: s2) tail2)
          have hlen : pat.length ≤ (c :: s2).length := by
            rw [ List.isPrefixOf_iff_prefix] at hm
            exact hm.length_le
          have hp1 : 1 ≤ pat.length := List.length_pos.mpr hpat
          have hdl : ((c :: s2).drop pat.length).length ≤ n := by
            simp [List.length_drop]
            omega
          calc replaceAll pat ((c :: s2) ++ tail2)
              = replaceAll pat ((c :: (s2 ++ tail2)).drop pat.length) :=
                replaceAll_cons_pos pat c (s2 ++ tail2) hpat hm2
            _ = replaceAll pat ((c :: s2).drop pat.length ++ tail2) := by
                rw [show (c :: (s2 ++ tail2)) = (c :: s2) ++ tail2 from rfl,
                   List.drop_append_of_le_length hlen]
            _ = replaceAll pat ((c :: s2).drop pat.length) ++ replaceAll pat tail2 :=
                ih _ hdl
            _ = replaceAll pat (c :: s2) ++ replaceAll pat tail2 := by
                rw [← replaceAll_cons_pos pat c s2 hpat hm]
        · have hm2 : ¬ pat.isPrefixOf (c :: (s2 ++ tail2)) = true := fun hc =>
            hm (hspan c s2 hc)
          calc replaceAll pat ((c :: s2) ++ tail2)
              = c :: replaceAll pat (s2 ++ tail2) :=
                replaceAll_cons_neg pat c (s2 ++ tail2) hm2
            _ = c :: (replaceAll pat s2 ++ replaceAll pat tail2) := by rw [ih s2 hs2]
            _ = (c :: replaceAll pat s2) ++ replaceAll pat tail2 := rfl
            _ = replaceAll pat (c :: s2) ++ replaceAll pat tail2 := by
                rw [← replaceAll_cons_neg pat c s2 hm]

  intro s
  exact key s.length s (le_refl _)

theorem replaceAll_self_head (pat xs : List Char) (hpat : pat ≠ []) :
    replaceAll pat (pat ++ xs) = replaceAll pat xs := by
  cases pat with
  | nil => exact absurd rfl hpat
  | cons p ps =>
    have hpre : (p :: ps).isPrefixOf ((p :: ps) ++ xs) = true := by
      rw [ List.isPrefixOf_iff_prefix]
      exact List.prefix_append _ _
    have h := replaceAll_cons_pos (p :: ps) p (ps ++ xs) hpat hpre
    rw [show (p :: (ps ++ xs)) = (p :: ps) ++ xs from rfl] at h
    rw [h, List.drop_left]

theorem bb_not_prefix_space (t : List Char) :
    escBB.isPrefixOf (spaceChar :: t) = false := by
  have h : (escChar == spaceChar) = false := by decide
  simp [escBB, List.isPrefixOf, h]

theorem reset_not_prefix_space (t : List Char) :
    escReset.isPrefixOf (spaceChar :: t) = false := by
  have h : (escChar == spaceChar) = false := by decide
  simp [escReset, List.isPrefixOf, h]

theorem replaceAll_space_cons (pat : List Char)
    (hh : ∀ t, pat.isPrefixOf (spaceChar :: t) = false) (xs : List Char) :
    replaceAll pat (spaceChar :: xs) = spaceChar :: replaceAll pat xs :=
  replaceAll_cons_neg pat spaceChar xs (by simp [hh xs])

theorem replaceAll_replicate_prepend (pat : List Char)
    (hh : ∀ t, pat.isPrefixOf (spaceChar :: t) = false) (k : Nat) (xs : List Char) :
    replaceAll pat (List.replicate k spaceChar ++ xs)
      = List.replicate k spaceChar ++ replaceAll pat xs := by
  induction k with
  | zero => simp
  | succ k2 ih =>
    rw [List.replicate_succ, List.cons_append, replaceAll_space_cons pat hh, ih,
       ← List.cons_append, ← List.replicate_succ]

theorem replaceAll_replicate (pat : List Char)
    (hh : ∀ t, pat.isPrefixOf (spaceChar :: t) = false) (k : Nat) :
    replaceAll pat (List.replicate k spaceChar) = List.replicate k spaceChar := by
  have h := replaceAll_replicate_prepend pat hh k []
  simpa [replaceAll_nil] using h

theorem unescaped_length_append_spaces (s : List Char) (k : Nat) :
    unescaped_length (s ++ List.replicate k spaceChar) = unescaped_length s + k := by
  unfold unescaped_length
  rw [replaceAll_append_split escBB (List.replicate k spaceChar) (by decide)
       (span_spaces escBB k (by decide)) s,
     replaceAll_replicate escBB bb_not_prefix_space k,
     replaceAll_append_split escReset (List.replicate k spaceChar) (by decide)
       (span_spaces escReset k (by decide)) (replaceAll escBB s),
     replaceAll_replicate escReset reset_not_prefix_space k]
  simp

theorem unescaped_length_spaces_prepend (k : Nat) (s : List Char) :
    unescaped_length (List.replicate k spaceChar ++ s) = k + unescaped_length s := by
  unfold unescaped_length
  rw [replaceAll_replicate_prepend escBB bb_not_prefix_space k s,
     replaceAll_replicate_prepend escReset reset_not_prefix_space k (replaceAll escBB s)]
  simp

/-- Claim C9 (confirmed): for every string s, the visible length of
`blue_bold s` (the fixed blue-bold start/reset escape wrapper) equals the
visible length of s, where visible length counts what remains after
removing all occurrences of the two recognized escape sequences. -/
theorem c9_colorize_visible_length (s : List Char) :
    unescaped_length (blue_bold s) = unescaped_length s := by
  unfold blue_bold unescaped_length
  rw [List.append_assoc, replaceAll_self_head escBB (s ++ escReset) (by decide),
     replaceAll_append_split escBB escReset (by decide) span_bb_reset s,
     show replaceAll escBB escReset = escReset from by decide,
     replaceAll_append_split escReset escReset (by decide) span_reset_reset
       (replaceAll escBB s),
     show replaceAll escReset escReset = [] from by decide,
     List.append_nil]

theorem pad_left_of_le (c : List Char) (m : Nat) (h : unescaped_length c ≤ m) :
    pad_left c m = some (List.replicate (m - unescaped_length c) spaceChar ++ c) := by
  unfold pad_left
  by_cases he : unescaped_length c = m
  · rw [if_pos he, he]
    simp
  · rw [if_neg he]
    unfold rust_sub
    rw [if_pos h]

theorem pad_right_of_le (c : List Char) (m : Nat) (h : unescaped_length c ≤ m) :
    pad_right c m = some (c ++ List.replicate (m - unescaped_length c) spaceChar) := by
  unfold pad_right
  by_cases he : unescaped_length c = m
  · rw [if_pos he, he]
    simp
  · rw [if_neg he]
    unfold rust_sub
    rw [if_pos h]

theorem pad_left_of_gt (c : List Char) (m : Nat) (h : m < unescaped_length c) :
    pad_left c m = none := by
  unfold pad_left
  rw [if_neg (by omega)]
  unfold rust_sub
  rw [if_neg (by omega)]

theorem pad_right_of_gt (c : List Char) (m : Nat) (h : m < unescaped_length c) :
    pad_right c m = none := by
  unfold pad_right
  rw [if_neg (by omega)]
  unfold rust_sub
  rw [if_neg (by omega)]

theorem foldl_max_le_init {α : Type} (f : α → Nat) :
    ∀ (l : List α) (a : Nat), a ≤ l.foldl (fun acc x => max acc (f x)) a := by
  intro l
  induction l with
  | nil => intro a; simp
  | cons x xs ih =>
    intro a
    simp only [List.foldl_cons]
    exact le_trans (le_max_left a (f x)) (ih _)

theorem mem_le_foldl_max {α : Type} (f : α → Nat) :
    ∀ (l : List α) (a : Nat) (x : α), x ∈ l →
      f x ≤ l.foldl (fun acc y => max acc (f y)) a := by
  intro l
  induction l with
  | nil =>
    intro a x hx
    simp at hx
  | cons y ys ih =>
    intro a x hx
    rcases List.mem_cons.mp hx with h | h
    · subst h
      simp only [List.foldl_cons]
      exact le_trans (le_max_right a (f x)) (foldl_max_le_init f ys _)
    · simp only [List.foldl_cons]
      exact ih _ x h

theorem cell_le_col_max (grid : List (List (List Char))) (row : List (List Char))
    (hrow : row ∈ grid) (col : Nat) :
    unescaped_length (row.getD col []) ≤ col_max_size_map grid col :=
  mem_le_foldl_max (fun r => unescaped_length (r.getD col [])) grid 0 row hrow

theorem mapM_eq_some_map {α β : Type} (f : α → Option β) (g : α → β) :
    ∀ (l : List α), (∀ x ∈ l, f x = some (g x)) → l.mapM f = some (l.map g) := by
  intro l
  induction l with
  | nil => intro _; rfl
  | cons x xs ih =>
    intro h
    rw [List.mapM_cons, h x (List.mem_cons_self _ _),
       ih (fun y hy => h y (List.mem_cons_of_mem _ hy))]
    rfl

theorem mapM_isSome {α β : Type} (f : α → Option β) :
    ∀ (l : List α), (∀ x ∈ l, ∃ y, f x = some y) → ∃ ys, l.mapM f = some ys := by
  intro l
  induction l with
  | nil => intro _; exact ⟨[], rfl⟩
  | cons x xs ih =>
    intro h
    obtain ⟨y, hy⟩ := h x (List.mem_cons_self _ _)
    obtain ⟨ys, hys⟩ := ih (fun z hz => h z (List.mem_cons_of_mem _ hz))
    refine ⟨y :: ys, ?_⟩
    rw [List.mapM_cons, hy, hys]
    rfl

theorem table_cons_eq (r0 : List (List Char)) (rest : List (List (List Char)))
    (cs : Nat) (al : TableAlignment) :
    table (r0 :: rest) cs al =
      (if ∀ row ∈ r0 :: rest, row.length = r0.length then
        match (r0 :: rest).mapM (fun row => (List.range r0.length).mapM (fun col =>
            padCell al r0.length col (col_max_size_map (r0 :: rest) col)
              (row.getD col []))) with
        | some paddedRows =>
          some (Except.ok (joinSep [newlineChar]
            (paddedRows.map (fun r => joinSep (List.replicate cs spaceChar) r))))
        | none => none
      else
        some (Except.error (chars ("All rows must have the same number of columns")))) :=
  rfl

theorem table_cons_of_valid (r0 : List (List Char)) (rest : List (List (List Char)))
    (cs : Nat) (al : TableAlignment)
    (huni : ∀ row ∈ r0 :: rest, row.length = r0.length) :
    table (r0 :: rest) cs al =
      match (r0 :: rest).mapM (fun row => (List.range r0.length).mapM (fun col =>
          padCell al r0.length col (col_max_size_map (r0 :: rest) col)
            (row.getD col []))) with
      | some paddedRows =>
        some (Except.ok (joinSep [newlineChar]
          (paddedRows.map (fun r => joinSep (List.replicate cs spaceChar) r))))
      | none => none := by
  rw [table_cons_eq, if_pos huni]

theorem table_cons_of_invalid (r0 : List (List Char)) (rest : List (List (List Char)))
    (cs : Nat) (al : TableAlignment)
    (huni : ¬ ∀ row ∈ r0 :: rest, row.length = r0.length) :
    table (r0 :: rest) cs al =
      some (Except.error (chars ("All rows must have the same number of columns"))) := by
  rw [table_cons_eq, if_neg huni]

theorem padCell_isSome (al : TableAlignment) (nc col m : Nat) (cell : List Char)
    (h : unescaped_length cell ≤ m) : ∃ out, padCell al nc col m cell = some out := by
  cases al with
  | Left => exact ⟨_, pad_right_of_le cell m h⟩
  | Right => exact ⟨_, pad_left_of_le cell m h⟩
  | RightLastLeft =>
    by_cases hc : col = nc - 1
    · refine ⟨cell ++ List.replicate (m - unescaped_length cell) spaceChar, ?_⟩
      show (if col = nc - 1 then pad_right cell m else pad_left cell m) = _
      rw [if_pos hc]
      exact pad_right_of_le cell m h
    · refine ⟨List.replicate (m - unescaped_length cell) spaceChar ++ cell, ?_⟩
      show (if col = nc - 1 then pad_right cell m else pad_left cell m) = _
      rw [if_neg hc]
      exact pad_left_of_le cell m h

/-- Claim C8 (amended): for every NON-EMPTY grid in which all rows have
the same field count, `table` succeeds with `Ok`; for every grid containing
two rows with differing field counts, it fails with the validation error.
(The original claim also covered the empty grid, on which the code panics
indexing `input_data[0]`; see the counterexample.) -/
theorem c8_amended_render (grid : List (List (List Char))) (cs : Nat) (al : TableAlignment) :
    (grid ≠ [] → (∀ row ∈ grid, row.length = (grid.headD []).length) →
      ∃ s, table grid cs al = some (Except.ok s)) ∧
    ((∃ r1 ∈ grid, ∃ r2 ∈ grid, r1.length ≠ r2.length) →
      table grid cs al =
        some (Except.error (chars ("All rows must have the same number of columns")))) := by
  constructor
  · intro hne huni
    cases grid with
    | nil => exact absurd rfl hne
    | cons r0 rest =>
      simp only [List.headD_cons] at huni
      have hpads : ∀ row ∈ r0 :: rest, ∃ ys,
          (List.range r0.length).mapM (fun col =>
            padCell al r0.length col (col_max_size_map (r0 :: rest) col)
              (row.getD col [])) = some ys := by
        intro row hrow
        apply mapM_isSome
        intro col _
        exact padCell_isSome al r0.length col _ _ (cell_le_col_max (r0 :: rest) row hrow col)
      obtain ⟨rows, hrows⟩ := mapM_isSome _ (r0 :: rest) hpads
      refine ⟨joinSep [newlineChar]
        (rows.map (fun r => joinSep (List.replicate cs spaceChar) r)), ?_⟩
      rw [table_cons_of_valid r0 rest cs al huni, hrows]
  · intro hbad
    obtain ⟨r1, hr1, r2, hr2, hne12⟩ := hbad
    cases grid with
    | nil => simp at hr1
    | cons r0 rest =>
      apply table_cons_of_invalid
      intro hall
      exact hne12 ((hall r1 hr1).trans (hall r2 hr2).symm)

/-- Claim C6 (amended): for every non-empty rectangular grid rendered with
`RightLastLeft` alignment, each row's non-last columns are padded on the
left with spaces so their visible widths equal the per-column maximum
visible width, and the final column is padded on the RIGHT with spaces up
to the per-column maximum — so a shorter final cell does receive trailing
padding (contrary to the original claim; see the counterexample). -/
theorem c6_amended_alignment (r0 : List (List Char)) (rest : List (List (List Char))) (cs : Nat)
    (huni : ∀ row ∈ r0 :: rest, row.length = r0.length) :
    table (r0 :: rest) cs TableAlignment.RightLastLeft =
      some (Except.ok (joinSep [newlineChar] ((r0 :: rest).map (fun row =>
        joinSep (List.replicate cs spaceChar) ((List.range r0.length).map (fun col =>
          if col = r0.length - 1 then
            row.getD col [] ++ List.replicate
              (col_max_size_map (r0 :: rest) col - unescaped_length (row.getD col []))
              spaceChar
          else
            List.replicate
              (col_max_size_map (r0 :: rest) col - unescaped_length (row.getD col []))
              spaceChar ++ row.getD col [])))))) ∧
    ∀ row ∈ r0 :: rest, ∀ col, col < r0.length → col ≠ r0.length - 1 →
      unescaped_length (List.replicate
          (col_max_size_map (r0 :: rest) col - unescaped_length (row.getD col []))
          spaceChar ++ row.getD col []) = col_max_size_map (r0 :: rest) col := by
  constructor
  · rw [table_cons_of_valid r0 rest cs _ huni]
    have hinner : ∀ row ∈ r0 :: rest,
        (List.range r0.length).mapM (fun col =>
          padCell TableAlignment.RightLastLeft r0.length col
            (col_max_size_map (r0 :: rest) col) (row.getD col [])) =
        some ((List.range r0.length).map (fun col =>
          if col = r0.length - 1 then
            row.getD col [] ++ List.replicate
              (col_max_size_map (r0 :: rest) col - unescaped_length (row.getD col []))
              spaceChar
          else
            List.replicate
              (col_max_size_map (r0 :: rest) col - unescaped_length (row.getD col []))
              spaceChar ++ row.getD col [])) := by
      intro row hrow
      apply mapM_eq_some_map
      intro col _
      have hle := cell_le_col_max (r0 :: rest) row hrow col
      by_cases hc : col = r0.length - 1
      · show (if col = r0.length - 1 then _ else _) = _
        rw [if_pos hc, if_pos hc]
        exact pad_right_of_le _ _ hle
      · show (if col = r0.length - 1 then _ else _) = _
        rw [if_neg hc, if_neg hc]
        exact pad_left_of_le _ _ hle
    rw [mapM_eq_some_map _ _ (r0 :: rest) hinner]
    simp only [List.map_map]
    rfl
  · intro row hrow col _ _
    have hle := cell_le_col_max (r0 :: rest) row hrow col
    rw [unescaped_length_spaces_prepend]
    omega

/-- Claim C7 (amended): if a cell's visible length equals the target
width, `pad_left`/`pad_right` add nothing and return the cell unchanged;
but if the visible length is GREATER than the target width, the pad-count
subtraction underflows and the operation fails (a panic, modelled `none`)
rather than returning the cell unchanged as the original claim stated. -/
theorem c7_amended_padding (s : List Char) (n : Nat) :
    (unescaped_length s = n → pad_left s n = some s ∧ pad_right s n = some s) ∧
    (n < unescaped_length s → pad_left s n = none ∧ pad_right s n = none) := by
  constructor
  · intro h
    constructor
    · unfold pad_left
      rw [if_pos h]
    · unfold pad_right
      rw [if_pos h]
  · intro h
    exact ⟨pad_left_of_gt s n h, pad_right_of_gt s n h⟩

theorem cmpList_self : ∀ x : List Char, cmpList x x = Ordering.eq := by
  intro x
  induction x with
  | nil => rfl
  | cons c rest ih => simp [cmpList, ih]

/-- Claim C2 (amended): under extension sort, for entries that both have
metadata: two entries with extensions order by the extension text; an
entry with no extension orders BEFORE any entry that has one (the original
claim said after); two extension-less entries order by name. -/
theorem c2_amended_extension_order (a b : RSEntry) (ma mb : Metadata)
    (ha : a.metadata = some ma) (hb : b.metadata = some mb) :
    (∀ ea eb, a.ext = some ea → b.ext = some eb →
      entry_cmp RSSort.Extension a b = cmpList ea eb) ∧
    (b.ext ≠ none → a.ext = none → entry_cmp RSSort.Extension a b = Ordering.lt) ∧
    (a.ext ≠ none → b.ext = none → entry_cmp RSSort.Extension a b = Ordering.gt) ∧
    (a.ext = none → b.ext = none →
      entry_cmp RSSort.Extension a b = cmpList a.name b.name) := by
  refine ⟨?_, ?_, ?_, ?_⟩
  · intro ea eb hea heb
    simp [entry_cmp, ha, hb, hea, heb]
  · intro hbne hano
    obtain ⟨eb, heb⟩ := Option.ne_none_iff_exists.mp hbne
    simp [entry_cmp, ha, hb, hano, heb.symm]
  · intro hane hbno
    obtain ⟨ea, hea⟩ := Option.ne_none_iff_exists.mp hane
    simp [entry_cmp, ha, hb, hea.symm, hbno]
  · intro hano hbno
    simp [entry_cmp, ha, hb, hano, hbno]

/-- Claim C3 (amended): for every sort key, two entries with metadata that
compare equal under the key's comparison make the comparator return
`Equal` — there is NO name fallback for ties (the stable sort therefore
keeps such pairs in input order, not name order, contrary to the original
claim); `Default` is name order; and two entries where either lacks
metadata always compare by name. -/
theorem c3_amended_tie_behavior (a b : RSEntry) :
    (∀ ma mb, a.metadata = some ma → b.metadata = some mb →
      ((ma.len = mb.len → entry_cmp RSSort.Size a b = Ordering.eq) ∧
       (ma.st_mtime = mb.st_mtime → entry_cmp RSSort.Time a b = Ordering.eq) ∧
       (ma.st_atime = mb.st_atime → entry_cmp RSSort.AccessTime a b = Ordering.eq) ∧
       (ma.is_dir = mb.is_dir → entry_cmp RSSort.Directory a b = Ordering.eq) ∧
       (∀ ea eb, a.ext = some ea → b.ext = some eb → ea = eb →
         entry_cmp RSSort.Extension a b = Ordering.eq) ∧
       entry_cmp RSSort.Default a b = cmpList a.name b.name)) ∧
    ((a.metadata = none ∨ b.metadata = none) →
      ∀ kind, entry_cmp kind a b = cmpList a.name b.name) := by
  constructor
  · intro ma mb ha hb
    refine ⟨?_, ?_, ?_, ?_, ?_, ?_⟩
    · intro h
      simp [entry_cmp, ha, hb, cmpNat, h]
    · intro h
      simp [entry_cmp, ha, hb, cmpInt, h]
    · intro h
      simp [entry_cmp, ha, hb, cmpInt, h]
    · intro h
      simp [entry_cmp, ha, hb, cmpBool, h]
    · intro ea eb hea heb hee
      simp [entry_cmp, ha, hb, hea, heb, hee, cmpList_self]
    · simp [entry_cmp, ha, hb]
  · intro h kind
    rcases h with h | h
    · cases hbm : b.metadata <;> simp [entry_cmp, h, hbm]
    · cases ham : a.metadata <;> simp [entry_cmp, h, ham]

theorem get_name_loop_of_not_contains (id : Nat) :
    ∀ (db : List (List Char)) (name : List Char),
      (∀ line ∈ db, containsSub (idPat id) line = false) →
      get_name_loop id name db = name := by
  intro db
  induction db with
  | nil => intro name _; rfl
  | cons line rest ih =>
    intro name h
    have hline := h line (List.mem_cons_self _ _)
    unfold get_name_loop
    rw [if_neg (by simp [hline])]
    exact ih name (fun l hl => h l (List.mem_cons_of_mem _ hl))

/-- Claim C10 (confirmed): owner/group name resolution returns an error
only when the database file cannot be read; for every id that does not
occur (as ":id:") on any line of the database content, the lookup succeeds
with the empty string, so the owner/group field rendered from the lookup
is blank rather than the "?" placeholder (which is reserved for an
unreadable database). -/
theorem c10_unknown_id_blank (uid : Nat) (db : List (List Char))
    (h : ∀ line ∈ db, containsSub (idPat uid) line = false) :
    get_by_uid uid (some db) = Except.ok [] ∧
    (match get_by_uid uid (some db) with
      | Except.ok user_name => user_name
      | Except.error _ => ['?']) = [] ∧
    (∀ db2 : List (List Char), ∃ s, get_by_uid uid (some db2) = Except.ok s) ∧
    get_by_uid uid none =
      Except.error (chars ("Error getting user name for uid ") ++ natStr uid) ∧
    group_by_gid uid (some db) = Except.ok [] ∧
    group_by_gid uid none =
      Except.error (chars ("Error getting group name for gid ") ++ natStr uid) := by
  have h0 : get_name_from_db uid db = [] := get_name_loop_of_not_contains uid db [] h
  refine ⟨?_, ?_, ?_, rfl, ?_, rfl⟩
  · show Except.ok (get_name_from_db uid db) = Except.ok []
    rw [h0]
  · show (match (Except.ok (get_name_from_db uid db) : Except (List Char) (List Char)) with
      | Except.ok user_name => user_name
      | Except.error _ => ['?']) = []
    simp [h0]
  · intro db2
    exact ⟨_, rfl⟩
  · show Except.ok (get_name_from_db uid db) = Except.ok []
    rw [h0]

/-- Claim C1 (code bug): evaluating the code at the failing input: the
claim says `from_days 0 = (1970, 1, 1)` with month in [1,12], but the code
returns year 1969 and month 19 (it adds 9 instead of subtracting 9 in the
month-group step of the cited Hinnant algorithm and omits the year
adjustment for January/February), and `month_display` then panics
unwrapping the `month_from_numeric` error for month 19. -/
theorem c1_from_days_code_eval : from_days 0 = { year := 1969, month := 19, day := 1 } ∧
    ¬(1 ≤ (from_days 0).month ∧ (from_days 0).month ≤ 12) ∧
    month_display (from_days 0) DateFormat.ShortMonth = none := by decide

/-- Claim C2 counterexample: sorting the entries a.md, b, c.go under
extension sort yields b, c.go, a.md — not c.go, a.md, b as claimed: the
extension-less entry sorts first, not last. -/
theorem c2_counterexample :
    ((RSEntries.sort_by { entries := [entAmd, entB, entCgo], block_size := 0 }
        RSSort.Extension).entries.map (fun e => e.name))
      = [chars "b", chars "c.go", chars "a.md"] ∧
    ((RSEntries.sort_by { entries := [entAmd, entB, entCgo], block_size := 0 }
        RSSort.Extension).entries.map (fun e => e.name))
      ≠ [chars "c.go", chars "a.md", chars "b"] := by decide

/-- Claim C3 counterexample: two entries with identical sizes and names
"b", "a" (in that input order) are left in input order b, a by size sort,
not in name order a, b as claimed. -/
theorem c3_counterexample :
    ((RSEntries.sort_by { entries := [entSizeB, entSizeA], block_size := 0 }
        RSSort.Size).entries.map (fun e => e.name)) = [chars "b", chars "a"] ∧
    ((RSEntries.sort_by { entries := [entSizeB, entSizeA], block_size := 0 }
        RSSort.Size).entries.map (fun e => e.name)) ≠ [chars "a", chars "b"] := by decide

/-- Claim C5 (code bug): evaluating the code at the failing input: for a
single entry whose metadata has block count 0 and preferred I/O block size
4096, `get_entries` reports the total 4 = st_blksize / 1024, while the sum
of the entries' block counts is 0 — the printed total sums the block SIZE
field, not the block count the claim (and an ls total) calls for. -/
theorem c5_total_code_eval :
    (get_entries [(chars "f", none, Except.ok c5meta2)]).block_size = 4 ∧
    (((get_entries [(chars "f", none, Except.ok c5meta2)]).entries.map (fun e =>
      match e.metadata with
      | some m => m.st_blocks
      | none => 0)).sum = 0) := by decide

/-- Claim C6 counterexample: rendering the grid [[a, bb], [cc, d]] with
`RightLastLeft` alignment produces a last line "cc d " whose final cell
"d" received a trailing padding space, contradicting the claim that the
final column gets no added trailing padding (which would have produced
"cc d" with no trailing space). -/
theorem c6_counterexample :
    table [[chars "a", chars "bb"], [chars "cc", chars "d"]] 1
        TableAlignment.RightLastLeft
      = some (Except.ok (chars (" a bb\ncc d "))) ∧
    chars (" a bb\ncc d ") ≠ chars (" a bb\ncc d") := by
  exact ⟨rfl, by decide⟩

/-- Claim C7 counterexample: a cell of visible length 2 padded to target
width 1 makes both `pad_left` and `pad_right` fail (underflow panic,
modelled `none`) instead of returning the cell unchanged as claimed. -/
theorem c7_counterexample :
    pad_right (chars "ab") 1 = none ∧ pad_left (chars "ab") 1 = none ∧
    (none : Option (List Char)) ≠ some (chars "ab") := by
  exact ⟨by decide, by decide, by decide⟩

/-- Claim C8 counterexample: the empty grid — on which all rows vacuously
have the same field count — makes `table` panic (modelled `none`) instead
of returning `Ok`, because the code indexes `input_data[0]`. -/
theorem c8_counterexample :
    table ([] : List (List (List Char))) 0 TableAlignment.Left = none ∧
    (∀ row ∈ ([] : List (List (List Char))), row.length = 0) := by
  exact ⟨rfl, by simp⟩

/-- Witness for the C2 amended theorem at concrete entries. -/
theorem c2_amended_extension_order_witness :
    entry_cmp RSSort.Extension entB entAmd = Ordering.lt ∧
    entry_cmp RSSort.Extension entCgo entAmd = cmpList (chars "go") (chars "md") :=
  ⟨((c2_amended_extension_order entB entAmd sampleMeta2 sampleMeta2 rfl rfl).2.1) (by decide) rfl,
   ((c2_amended_extension_order entCgo entAmd sampleMeta2 sampleMeta2 rfl rfl).1) (chars "go") (chars "md") rfl rfl⟩

/-- Witness for the C3 amended theorem at concrete entries. -/
theorem c3_amended_tie_behavior_witness :
    entry_cmp RSSort.Size entSizeB entSizeA = Ordering.eq ∧
    entry_cmp RSSort.Size { name := chars "n", ext := none, metadata := none } entSizeA
      = cmpList (chars "n") (chars "a") :=
  ⟨(((c3_amended_tie_behavior entSizeB entSizeA).1 sampleMeta2 sampleMeta2 rfl rfl).1) rfl,
   ((c3_amended_tie_behavior { name := chars "n", ext := none, metadata := none } entSizeA).2
      (Or.inl rfl)) RSSort.Size⟩

/-- Witness for the C7 amended theorem at concrete cells. -/
theorem c7_amended_padding_witness :
    (pad_left (chars "ab") 2 = some (chars "ab") ∧
      pad_right (chars "ab") 2 = some (chars "ab")) ∧
    (pad_left (chars "ab") 1 = none ∧ pad_right (chars "ab") 1 = none) :=
  ⟨(c7_amended_padding (chars "ab") 2).1 (by decide), (c7_amended_padding (chars "ab") 1).2 (by decide)⟩

/-- Witness for the C8 amended theorem at concrete grids. -/
theorem c8_amended_render_witness :
    (∃ s, table [[chars "x", chars "yy"]] 2 TableAlignment.Left
      = some (Except.ok s)) ∧
    table [[chars "x"], []] 2 TableAlignment.Left
      = some (Except.error (chars ("All rows must have the same number of columns"))) :=
  ⟨(c8_amended_render [[chars "x", chars "yy"]] 2 TableAlignment.Left).1 (by decide) (by decide),
   (c8_amended_render [[chars "x"], []] 2 TableAlignment.Left).2 (by decide)⟩

/-- Witness for the C6 amended theorem at a concrete grid. -/
theorem c6_amended_alignment_witness :
    table [[chars "a", chars "bb"], [chars "cc", chars "d"]] 1
        TableAlignment.RightLastLeft
      = some (Except.ok (chars (" a bb\ncc d "))) := by
  rw [(c6_amended_alignment [chars "a", chars "bb"] [[chars "cc", chars "d"]] 1 (by decide)).1]
  rfl

/-- Witness for the C10 theorem at a concrete id and database. -/
theorem c10_unknown_id_blank_witness : get_by_uid 0 (some [chars "root"]) = Except.ok [] :=
  (c10_unknown_id_blank 0 [chars "root"] (by decide)).1

/-- Claim C4 (code bug): for every entry whose metadata is absent and
every combination of display options (and external conditions), the code's
`get_table_row` produces an EMPTY row — zero fields — because the name
push sits inside the `if let Some(metadata)` block; the claim (and the
surrounding design, which retains such entries precisely so they still
display) says the row should be exactly the one name field. -/
theorem c4_no_metadata_empty_row (options : Options) (name : List Char)
    (e : Option (List Char)) (is_macos stdout_is_terminal : Bool)
    (user_db group_db : Option (List (List Char))) :
    get_table_row { name := name, ext := e, metadata := none } options is_macos
        stdout_is_terminal user_db group_db = some [] ∧
      (some ([] : List (List Char)) : Option (List (List Char))) ≠ some [name] := by
  refine ⟨rfl, ?_⟩
  intro h
  simp at h
